import Mathlib

/-!
# Verification of the Gloomhaven diary scenario-graph core (`src/scenario.py`)

This file shallowly embeds the data model and the operations of
`scenario.py` — the `Achievement`/`Scenario` records, the graph linker
`ScenarioManager.__link_scenarios`, the CRUD operations of
`ScenarioManager`, and the two tree builders `render_tree` and
`render_scenario_tree` — and proves or refutes the specification claims
about them.

Modelling conventions:
* Python `dict` (insertion-ordered) is an association list
  `List (String × Scenario)`; assignment `d[k] = v` replaces the value of
  an existing key in place and otherwise appends (`dictSet`).
* Python `set` fields (`successors`, `predecessors`) are `List String`
  with set-flavoured insertion (`pySetAdd` appends only when absent);
  the source actually defaults these fields to *lists* (a slip in the
  dataclass), so a list model covers both.
* Exceptions are `Except PyError`.  `del d[k]` on a missing key raises
  Python's `KeyError`, `list.remove` on a missing value raises
  `ValueError`, and the explicit `raise ScenarioNotFoundException`
  becomes `PyError.scenarioNotFound`.
* The graphviz `Digraph` is external I/O; what the builders are modelled
  as emitting is the abstract graph description the core computes: node
  ids (with the highlight colour for `render_tree`) and the insertion
  ordered edge dictionary keyed by `(from, to)` with optional label.
  Node label strings (`formatted()` payloads handed to graphviz) are
  rendering payload and are not part of the graph structure.
* `str.isnumeric` is modelled as "non-empty and all decimal digits";
  the ids appearing in this repository are ASCII decimal strings, and
  non-ASCII unicode numerics are out of scope.  Consequently Python's
  `int` on such a string is `String.toNat!`.
* The self-growing work list of `render_scenario_tree` (a Python `for`
  over a list that is appended to during iteration) is an index-driven
  loop; Lean needs a termination witness, so the loop carries fuel.
  `renderScenarioTree` runs it with fuel `scenarios.length + 1`, and the
  termination theorems below prove this fuel is never exhausted for
  well-keyed managers (this is exactly the termination claim C10).
* Python `set(...)` iteration order (in `__all_achievements`) is
  unspecified; the model fixes one concrete order via `dedup`; every
  claim about the catalogue is a membership statement, which is
  order-independent.
-/

inductive Difficulty where
  | EASY | MEDIUM | HARD
deriving DecidableEq, Repr

inductive AchievementType where
  | GROUP | GLOBAL
deriving DecidableEq, Repr

inductive AchievementStatus where
  | OPEN | CLOSED
deriving DecidableEq, Repr

/-- `Achievement`: name, type, status; equality is over the full triple
(the Python dataclass derives `__eq__` over all fields). -/
structure Achievement where
  name : String
  type : AchievementType
  status : AchievementStatus
deriving DecidableEq, Repr

/-- `Achievement.__str__`: `"{name} ({type.name}) {status.name}"`. -/
def Achievement.str (a : Achievement) : String :=
  let t := match a.type with | .GROUP => "GROUP" | .GLOBAL => "GLOBAL"
  let s := match a.status with | .OPEN => "OPEN" | .CLOSED => "CLOSED"
  a.name ++ " (" ++ t ++ ") " ++ s

/-- The `Scenario` dataclass.  Field defaults mirror the source
(`None` becomes `none`, the empty collection defaults become `[]`). -/
structure Scenario where
  id : String
  name : Option String := none
  aim : Option String := none
  successors : List String := []
  predecessors : List String := []
  difficulty : Option Difficulty := none
  attempts : Option Int := none
  description : Option String := none
  rewards : List String := []
  achievements : List Achievement := []
  requirements : List Achievement := []
  played : Bool := false
deriving DecidableEq, Repr

/-- The exceptions the operations can raise.  `scenarioNotFound` is the
explicit `ScenarioNotFoundException`; `keyError` and `valueError` are
Python's built-in errors escaping from `del dict[...]` and
`list.remove`. -/
inductive PyError where
  | scenarioNotFound (id : String)
  | keyError (key : String)
  | valueError
deriving DecidableEq, Repr

instance {ε α : Type} [DecidableEq ε] [DecidableEq α] :
    DecidableEq (Except ε α) := fun x y =>
  match x, y with
  | .ok a, .ok b =>
    if h : a = b then isTrue (by rw [h])
    else isFalse (by intro hc; cases hc; exact h rfl)
  | .error a, .error b =>
    if h : a = b then isTrue (by rw [h])
    else isFalse (by intro hc; cases hc; exact h rfl)
  | .ok _, .error _ => isFalse (by intro hc; cases hc)
  | .error _, .ok _ => isFalse (by intro hc; cases hc)

/-! ## Python container primitives -/

/-- `str.isnumeric()` restricted to ASCII decimal digits (see header).
Phrased over the character list of the string (extensionally the same as
`String.all`, which iterates byte positions and does not reduce inside
the kernel). -/
def pyIsNumeric (s : String) : Bool :=
  !s.data.isEmpty && s.data.all Char.isDigit

/-- Decimal value of a digit list (most significant first). -/
def natOfDigits : List Char → Nat → Nat
  | [], acc => acc
  | c :: rest, acc => natOfDigits rest (acc * 10 + (c.toNat - 48))

/-- `int(s)` on a numeric string (`String.toNat!`, phrased over the
character list so that it reduces in the kernel). -/
def pyInt (s : String) : Nat := natOfDigits s.data 0

/-- `k in d` for a dict modelled as an association list. -/
def pyContainsKey {β : Type} (m : List (String × β)) (k : String) : Bool :=
  m.any (fun p => decide (p.1 = k))

/-- `d[k]` (first binding; Python dicts have unique keys). -/
def pyLookup {β : Type} (m : List (String × β)) (k : String) : Option β :=
  (m.find? (fun p => decide (p.1 = k))).map Prod.snd

/-- `d.values()` in insertion order. -/
def pyValues {β : Type} (m : List (String × β)) : List β :=
  m.map Prod.snd

/-- `d[k] = v`: replace in place when the key exists, else append. -/
def dictSet {β : Type} (m : List (String × β)) (k : String) (v : β) :
    List (String × β) :=
  if pyContainsKey m k then
    m.map (fun p => if p.1 = k then (p.1, v) else p)
  else m ++ [(k, v)]

/-- `s.add(x)` on a Python set modelled as a duplicate-free list. -/
def pySetAdd (l : List String) (x : String) : List String :=
  if x ∈ l then l else l ++ [x]

/-! ## The graph linker (`ScenarioManager.__link_scenarios`) -/

/-- Add `predId` to the predecessor set of a scenario. -/
def addPred (s : Scenario) (predId : String) : Scenario :=
  { s with predecessors := pySetAdd s.predecessors predId }

/-- `self.scenarios[succId].predecessors.add(scId)`: in-place mutation of
the value stored under `succId`. -/
def dictAddPred (m : List (String × Scenario)) (succId scId : String) :
    List (String × Scenario) :=
  m.map (fun p => if p.1 = succId then (p.1, addPred p.2 scId) else p)

/-- One inner-loop step of the first linking pass: scenario `sc` and one
entry `succId` of its successor set.  The state is the scenario map
(whose key set never changes during the pass) together with the
`new_scenarios` list of stubs to be inserted after the pass. -/
def linkStep (acc : List (String × Scenario) × List Scenario)
    (sc : Scenario) (succId : String) :
    List (String × Scenario) × List Scenario :=
  if pyIsNumeric succId then
    if pyContainsKey acc.1 succId then
      (dictAddPred acc.1 succId sc.id, acc.2)
    else
      (acc.1, acc.2 ++ [{ id := succId, predecessors := [sc.id] }])
  else acc

/-- The doubly nested `for scenario in values: for successor_id in
scenario.successors:` loop.  Iterating the original value list is
faithful: the pass only mutates `predecessors` fields (never read by the
pass) and only appends stubs after the pass, and the key-membership test
is against the map whose key set is constant throughout. -/
def linkPass (vals : List Scenario)
    (acc : List (String × Scenario) × List Scenario) :
    List (String × Scenario) × List Scenario :=
  vals.foldl (fun a sc => sc.successors.foldl (fun a2 t => linkStep a2 sc t) a) acc

/-- `__link_scenarios`: run the pass, then insert the collected stubs. -/
def linkScenarios (m : List (String × Scenario)) : List (String × Scenario) :=
  let r := linkPass (pyValues m) (m, [])
  r.2.foldl (fun mm sc => dictSet mm sc.id sc) r.1

/-! ## ScenarioManager state and CRUD -/

structure ScenarioManager where
  scenarios : List (String × Scenario)
  worldStatus : List Achievement
  achievements : List Achievement
deriving DecidableEq, Repr

/-- `__all_achievements`: the union (unique by full identity) of every
scenario's achievements, every scenario's requirements and the world
status.  Python realises the union with `set`, whose iteration order is
unspecified; `dedup` fixes one order, membership-faithfully. -/
def allAchievements (scenarios : List (String × Scenario))
    (worldStatus : List Achievement) : List Achievement :=
  ((pyValues scenarios).flatMap (fun s => s.achievements) ++
   (pyValues scenarios).flatMap (fun s => s.requirements) ++
   worldStatus).dedup

/-- `ScenarioManager.__init__`: store the inputs, compute the catalogue
from the *unlinked* map, then run the linker. -/
def mkScenarioManager (scenarios : List (String × Scenario))
    (worldStatus : List Achievement) : ScenarioManager :=
  { scenarios := linkScenarios scenarios
    worldStatus := worldStatus
    achievements := allAchievements scenarios worldStatus }

/-- `add_scenario`: `None` is a no-op; otherwise upsert by id and extend
the catalogue with any new achievement/requirement values. -/
def addScenario (mgr : ScenarioManager) : Option Scenario → ScenarioManager
  | none => mgr
  | some s =>
    let ach := s.achievements.foldl
      (fun acc a => if a ∈ acc then acc else acc ++ [a]) mgr.achievements
    let ach2 := s.requirements.foldl
      (fun acc a => if a ∈ acc then acc else acc ++ [a]) ach
    { scenarios := dictSet mgr.scenarios s.id s
      worldStatus := mgr.worldStatus
      achievements := ach2 }

/-- `del d[k]`: remove the binding (Python dict keys are unique, so the
first binding is the binding). -/
def pyDictDel (m : List (String × Scenario)) (k : String) :
    List (String × Scenario) :=
  m.eraseP (fun p => decide (p.1 = k))

/-- `remove_scenario`: `del self.scenarios[id]` raises `KeyError` when
the id is absent; on success the catalogue is recomputed from scratch. -/
def removeScenario (mgr : ScenarioManager) (scenarioId : String) :
    Except PyError ScenarioManager :=
  if pyContainsKey mgr.scenarios scenarioId then
    let scenarios' := pyDictDel mgr.scenarios scenarioId
    .ok { scenarios := scenarios'
          worldStatus := mgr.worldStatus
          achievements := allAchievements scenarios' mgr.worldStatus }
  else .error (.keyError scenarioId)

/-- The eviction loop of `add_world_status`:
`for del_achievement in self.world_status: if del_achievement.name ==
achievement.name: self.world_status.remove(del_achievement)`.
Python iterates by index over the list *while it is being mutated*:
after the element at index `i` is yielded and possibly removed
(`list.remove` deletes the first element equal to it), iteration resumes
at index `i+1` of the modified list.  The loop is driven by structural
fuel so that it reduces in the kernel; the distance `ws.length - i`
strictly decreases each iteration, so the fuel `evictByName` supplies is
exact (`evictLoop_fuel_stable` below). -/
def evictLoop (nm : String) : Nat → List Achievement → Nat → List Achievement
  | 0, ws, _ => ws
  | fuel + 1, ws, i =>
    if h : i < ws.length then
      if (ws.get ⟨i, h⟩).name = nm then
        evictLoop nm fuel (ws.erase (ws.get ⟨i, h⟩)) (i + 1)
      else evictLoop nm fuel ws (i + 1)
    else ws

def evictByName (ws : List Achievement) (i : Nat) (nm : String) :
    List Achievement :=
  evictLoop nm (ws.length - i) ws i

/-- `add_world_status`: identical values are a no-op; otherwise evict
same-named entries, then append. -/
def addWorldStatus (mgr : ScenarioManager) (a : Achievement) :
    ScenarioManager :=
  if a ∈ mgr.worldStatus then mgr
  else { mgr with worldStatus := evictByName mgr.worldStatus 0 a.name ++ [a] }

/-- `remove_world_status`: `list.remove` deletes the first occurrence of
the exact value and raises `ValueError` when none exists. -/
def removeWorldStatus (mgr : ScenarioManager) (a : Achievement) :
    Except PyError ScenarioManager :=
  if a ∈ mgr.worldStatus then
    .ok { mgr with worldStatus := mgr.worldStatus.erase a }
  else .error .valueError

/-- `keys()`: scenario ids sorted by `int(x)`.  Python's `sorted` is a
stable sort, and all stable sorts under one key agree pointwise;
`insertionSort` is a stable sort that reduces in the kernel. -/
def ScenarioManager.keys (mgr : ScenarioManager) : List String :=
  (mgr.scenarios.map Prod.fst).insertionSort (fun a b => pyInt a ≤ pyInt b)

/-- `values()`: scenarios sorted by `int(x.id)`. -/
def ScenarioManager.values (mgr : ScenarioManager) : List Scenario :=
  (pyValues mgr.scenarios).insertionSort (fun a b => pyInt a.id ≤ pyInt b.id)

/-! ## Full-graph build (`render_tree`) -/

/-- Edge dictionary: keyed by `(from, to)`, value the optional label. -/
abbrev EdgeList := List ((String × String) × Option String)

def edgeContainsKey (edges : EdgeList) (k : String × String) : Bool :=
  edges.any (fun p => decide (p.1 = k))

def edgeLookup (edges : EdgeList) (k : String × String) :
    Option (Option String) :=
  (edges.find? (fun p => decide (p.1 = k))).map Prod.snd

/-- `edges[(f, t)] = lbl`: dict assignment (replace or append). -/
def edgeSet (edges : EdgeList) (k : String × String) (lbl : Option String) :
    EdgeList :=
  if edgeContainsKey edges k then
    edges.map (fun p => if p.1 = k then (p.1, lbl) else p)
  else edges ++ [(k, lbl)]

/-- Highlight colour of a node in `render_tree`: unplayed scenarios are
`lightgreen` when some requirement is currently in the world status and
`lavenderblush3` otherwise; played scenarios keep the default colour. -/
def nodeColor (sc : Scenario) (worldStatus : List Achievement) :
    Option String :=
  if sc.played then none
  else if sc.requirements.any (fun r => decide (r ∈ worldStatus)) then
    some "lightgreen"
  else some "lavenderblush3"

/-- The requirement-provenance scan of `render_tree` for one unplayed
scenario: for every requirement, every scenario holding it in its
`achievements` gets a labelled edge (unconditional dict assignment). -/
def reqEdgesFull (vals : List Scenario) (sc : Scenario) (edges : EdgeList) :
    EdgeList :=
  sc.requirements.foldl
    (fun e req =>
      vals.foldl
        (fun e2 pre =>
          if req ∈ pre.achievements then
            edgeSet e2 (pre.id, sc.id) (some req.str)
          else e2)
        e)
    edges

/-- The successor scan of `render_tree`: unlabelled edges to numeric
successors, inserted only when the key pair is absent. -/
def succEdgesFull (sc : Scenario) (edges : EdgeList) : EdgeList :=
  sc.successors.foldl
    (fun e succ =>
      if pyIsNumeric succ then
        if edgeContainsKey e (sc.id, succ) then e
        else e ++ [((sc.id, succ), none)]
      else e)
    edges

/-- `render_tree`: one node per scenario (id plus highlight colour) and
the edge dictionary built by the per-scenario scans, in insertion
order. -/
def renderTree (mgr : ScenarioManager) :
    List (String × Option String) × EdgeList :=
  (pyValues mgr.scenarios).foldl
    (fun acc sc =>
      let nodes := acc.1 ++ [(sc.id, nodeColor sc mgr.worldStatus)]
      let edges := if sc.played then acc.2
                   else reqEdgesFull (pyValues mgr.scenarios) sc acc.2
      (nodes, succEdgesFull sc edges))
    ([], [])

/-! ## Bounded single-root build (`render_scenario_tree`) -/

/-- The hop guard `if max_hop and hop > max_hop`, with Python truthiness:
`None` and `0` are both falsy, so the guard can only fire for a nonzero
bound. -/
def pyGuard (maxHop : Option Nat) (hop : Nat) : Bool :=
  match maxHop with
  | none => false
  | some m => if m = 0 then false else decide (hop > m)

/-- Work list entries: `(scenario, hop)`. -/
abbrev WorkList := List (Scenario × Nat)

/-- Inner loop of the CLOSED-requirement scan: for a fixed requirement,
walk all scenarios; a scenario already on the work list (by id) is
skipped; one granting the requirement is enqueued at `hop+1` and a
labelled provenance edge is recorded (dict assignment). -/
def reqScanPre (sc : Scenario) (hop : Nat) (req : Achievement) :
    List Scenario → WorkList → EdgeList → WorkList × EdgeList
  | [], work, edges => (work, edges)
  | pre :: rest, work, edges =>
    if work.any (fun w => decide (w.1.id = pre.id)) then
      reqScanPre sc hop req rest work edges
    else if req ∈ pre.achievements then
      reqScanPre sc hop req rest (work ++ [(pre, hop + 1)])
        (edgeSet edges (pre.id, sc.id) (some req.str))
    else reqScanPre sc hop req rest work edges

/-- The requirement scan: only CLOSED requirements are processed. -/
def reqScan (vals : List Scenario) (sc : Scenario) (hop : Nat) :
    List Achievement → WorkList → EdgeList → WorkList × EdgeList
  | [], work, edges => (work, edges)
  | req :: rest, work, edges =>
    if req.status = .CLOSED then
      let r := reqScanPre sc hop req vals work edges
      reqScan vals sc hop rest r.1 r.2
    else reqScan vals sc hop rest work edges

/-- The predecessor scan: an unknown predecessor id raises
`ScenarioNotFoundException`; otherwise an unlabelled edge is recorded if
absent and the predecessor is enqueued at `hop+1` unless an entry with
that id is already on the work list. -/
def predScan (scenarios : List (String × Scenario)) (sc : Scenario)
    (hop : Nat) :
    List String → WorkList → EdgeList → Except PyError (WorkList × EdgeList)
  | [], work, edges => .ok (work, edges)
  | pid :: rest, work, edges =>
    match pyLookup scenarios pid with
    | none => .error (.scenarioNotFound pid)
    | some predecessor =>
      let edges' := if edgeContainsKey edges (predecessor.id, sc.id) then edges
                    else edges ++ [((predecessor.id, sc.id), none)]
      let work' := if work.all (fun w => decide (w.1.id ≠ pid)) then
                     work ++ [(predecessor, hop + 1)]
                   else work
      predScan scenarios sc hop rest work' edges'

/-- The result of the bounded traversal: visited node ids (in visit
order), the edge dictionary, and the final work list. -/
abbrev RstResult := List String × EdgeList × WorkList

/-- The `for scenario, hop in work` loop of `render_scenario_tree`:
Python iterates a list by index while the body appends to it, so the
loop is driven by the index `i`.  The `fuel` argument is the Lean-side
termination witness; when it runs out the current state is returned
(the termination theorems prove this never happens for well-keyed
managers at the fuel `renderScenarioTree` supplies). -/
def rstLoop (scenarios : List (String × Scenario)) (maxHop : Option Nat) :
    Nat → WorkList → Nat → EdgeList → List String → Except PyError RstResult
  | 0, work, _, edges, nodes => .ok (nodes, edges, work)
  | fuel + 1, work, i, edges, nodes =>
    if h : i < work.length then
      let sc := (work.get ⟨i, h⟩).1
      let hop := (work.get ⟨i, h⟩).2
      if pyGuard maxHop hop then
        rstLoop scenarios maxHop fuel work (i + 1) edges nodes
      else
        let nodes' := nodes ++ [sc.id]
        let r := reqScan (pyValues scenarios) sc hop sc.requirements work edges
        match predScan scenarios sc hop sc.predecessors r.1 r.2 with
        | .error e => .error e
        | .ok (work'', edges'') =>
          rstLoop scenarios maxHop fuel work'' (i + 1) edges'' nodes'
    else .ok (nodes, edges, work)

/-- `render_scenario_tree` with explicit fuel for the work-list loop. -/
def renderScenarioTreeFuel (mgr : ScenarioManager) (scenarioId : String)
    (maxHop : Option Nat) (fuel : Nat) : Except PyError RstResult :=
  match pyLookup mgr.scenarios scenarioId with
  | none => .error (.scenarioNotFound scenarioId)
  | some root => rstLoop mgr.scenarios maxHop fuel [(root, 0)] 0 [] []

/-- `render_scenario_tree`: root must exist; the loop is seeded with
`(root, 0)` and run with fuel `scenarios.length + 1`, which the
termination theorems show is ample for well-keyed managers. -/
def renderScenarioTree (mgr : ScenarioManager) (scenarioId : String)
    (maxHop : Option Nat) : Except PyError RstResult :=
  renderScenarioTreeFuel mgr scenarioId maxHop (mgr.scenarios.length + 1)

/-! ## Observation helpers -/

/-- The predecessor set stored for id `i` (empty when absent). -/
def predecessorsOf (mgr : ScenarioManager) (i : String) : List String :=
  ((pyLookup mgr.scenarios i).map Scenario.predecessors).getD []

/-- The successor set stored for id `i` (empty when absent). -/
def successorsOf (mgr : ScenarioManager) (i : String) : List String :=
  ((pyLookup mgr.scenarios i).map Scenario.successors).getD []

/-- Node ids of a traversal result (empty on error). -/
def rstNodes (r : Except PyError RstResult) : List String :=
  match r with | .ok s => s.1 | .error _ => []

/-- Edge dictionary of a traversal result (empty on error). -/
def rstEdges (r : Except PyError RstResult) : EdgeList :=
  match r with | .ok s => s.2.1 | .error _ => []

/-- Final work list of a traversal result (empty on error). -/
def rstWork (r : Except PyError RstResult) : WorkList :=
  match r with | .ok s => s.2.2 | .error _ => []

/-- Whether a result is the `ScenarioNotFoundException` error. -/
def raisesNotFound {α : Type} : Except PyError α → Bool
  | .error (.scenarioNotFound _) => true
  | _ => false

/-- A scenario map is well-keyed when every binding stores a scenario
whose `id` field equals its dict key — the invariant every constructor
path of the source (`from_file`, `add_scenario`, the linker's stubs)
maintains. -/
abbrev WellKeyed (m : List (String × Scenario)) : Prop :=
  ∀ p ∈ m, Scenario.id p.2 = p.1

/-- Structural restatement of the eviction loop used only in proofs: on
a list whose names are pairwise distinct, the index loop of
`evictByName` visits each element once, erases the matching element and
(because `list.remove` shifts the tail left while the loop index still
advances) skips the element immediately after an erased one. -/
def evictSimple (nm : String) : List Achievement → List Achievement
  | [] => []
  | a :: rest =>
    if a.name = nm then
      match rest with
      | [] => []
      | b :: rest' => b :: evictSimple nm rest'
    else a :: evictSimple nm rest

/-! ## Concrete instances used by the claims -/

def keyAch : Achievement := ⟨"Key", .GROUP, .CLOSED⟩
def goldOpen : Achievement := ⟨"Gold", .GROUP, .OPEN⟩
def goldClosed : Achievement := ⟨"Gold", .GROUP, .CLOSED⟩
def silverOpen : Achievement := ⟨"Silver", .GROUP, .OPEN⟩

def mgrEmpty : ScenarioManager := mkScenarioManager [] []

/-- Two scenarios both listing the not-yet-present successor "3". -/
def c1map : List (String × Scenario) :=
  [("1", { id := "1", successors := ["3"] }),
   ("2", { id := "2", successors := ["3"] })]

def c1mgr : ScenarioManager := mkScenarioManager c1map []

/-- A three-scenario predecessor chain 1 ← 2 ← 3. -/
def chainMgr : ScenarioManager :=
  mkScenarioManager
    [("1", { id := "1" }),
     ("2", { id := "2", predecessors := ["1"] }),
     ("3", { id := "3", predecessors := ["2"] })] []

/-- The C7 configuration: successors 1→{2,3}, scenario 2 unplayed and
requiring "Key", scenario 3 granting "Key". -/
def c7mgr : ScenarioManager :=
  mkScenarioManager
    [("1", { id := "1", successors := ["2", "3"], played := true }),
     ("2", { id := "2", requirements := [keyAch] }),
     ("3", { id := "3", achievements := [keyAch], played := true })] []

/-- A map whose single binding stores a scenario whose `id` field
differs from its dict key ("1" ↦ scenario with id "2") and which lists
itself (by key) as predecessor. -/
def pathoMgr : ScenarioManager :=
  mkScenarioManager [("1", { id := "2", predecessors := ["1"] })] []

def c3mgr : ScenarioManager :=
  mkScenarioManager [("1", { id := "1", achievements := [goldClosed] })] []

def c3removed : ScenarioManager :=
  { scenarios := [], worldStatus := [], achievements := [] }

def c6mgr : ScenarioManager :=
  { scenarios := [], worldStatus := [silverOpen], achievements := [silverOpen] }

def c9mgr : ScenarioManager :=
  { scenarios := [("2", { id := "2" }), ("10", { id := "10" }),
                  ("1", { id := "1" })],
    worldStatus := [], achievements := [] }

/-! ## Linker analysis vocabulary -/

/-- All `(scenario, successor-token)` pairs scanned by the linking pass,
in scan order (the flattening of the two nested `for` loops). -/
def succPairs (vals : List Scenario) : List (Scenario × String) :=
  vals.flatMap (fun sc => sc.successors.map (fun t => (sc, t)))

/-- Every numeric successor mentioned by a stored scenario is a key of
the map. -/
def AllPresent (m : List (String × Scenario)) : Prop :=
  ∀ sc ∈ pyValues m, ∀ t ∈ sc.successors,
    pyIsNumeric t = true → pyContainsKey m t = true

/-- Every numeric successor edge is recorded in the predecessors of the
entries stored under the successor's key. -/
def AllLinked (m : List (String × Scenario)) : Prop :=
  ∀ sc ∈ pyValues m, ∀ t ∈ sc.successors, pyIsNumeric t = true →
    ∀ p ∈ m, p.1 = t → sc.id ∈ p.2.predecessors

/-! ## Shared lemmas -/

/-- Membership in the recomputed achievement catalogue. -/
theorem mem_allAchievements (s : List (String × Scenario))
    (ws : List Achievement) (a : Achievement) :
    a ∈ allAchievements s ws ↔
      ((∃ sc ∈ pyValues s, a ∈ sc.achievements) ∨
       (∃ sc ∈ pyValues s, a ∈ sc.requirements) ∨ a ∈ ws) := by
  simp [allAchievements, List.mem_dedup, List.mem_append, List.mem_flatMap]

/-! ## C8 -/

/-- C8: `add_scenario(None)` is a complete no-op: the scenario map, the
world status and the achievement catalogue are unchanged, and no error
is raised (the operation is total). -/
theorem addScenario_none_noop (mgr : ScenarioManager) :
    addScenario mgr none = mgr ∧
    (addScenario mgr none).scenarios = mgr.scenarios ∧
    (addScenario mgr none).worldStatus = mgr.worldStatus ∧
    (addScenario mgr none).achievements = mgr.achievements :=
  ⟨rfl, rfl, rfl, rfl⟩

/-! ## C7 -/

/-- C7: in the full-graph build over the manager holding scenario "1"
with successors {"2","3"}, unplayed scenario "2" requiring
`Achievement("Key",GROUP,CLOSED)` and scenario "3" granting it, the edge
dictionary contains the provenance edge 3 → 2 labelled
"Key (GROUP) CLOSED" as well as the unlabelled successor edges 1 → 2 and
1 → 3. -/
theorem renderTree_requirement_and_successor_edges :
    edgeLookup (renderTree c7mgr).2 ("3", "2") = some (some "Key (GROUP) CLOSED") ∧
    edgeLookup (renderTree c7mgr).2 ("1", "2") = some none ∧
    edgeLookup (renderTree c7mgr).2 ("1", "3") = some none := by
  decide

/-! ## C1 -/

/-- C1 (code bug): after construction over `c1map`, scenario "1" still
lists "3" as a numeric successor, a scenario "3" exists, and yet "1" is
*not* in the predecessors of "3": the two stubs created for the shared
missing successor are inserted by `scenarios[stub.id] = stub` one after
the other, so the later stub (predecessors {"2"}) overwrites the earlier
one (predecessors {"1"}). -/
theorem linker_loses_predecessor_of_shared_stub :
    successorsOf c1mgr "1" = ["3"] ∧
    pyContainsKey c1mgr.scenarios "3" = true ∧
    predecessorsOf c1mgr "3" = ["2"] ∧
    "1" ∉ predecessorsOf c1mgr "3" := by
  decide

/-! ## C2 -/

/-- C2 (counterexample): on the chain 1 ← 2 ← 3 rooted at "3" with
`max_hops = 0`, the result does not consist of node "3" alone — nodes
"2" and "1" are visited and the edge 1 → 2 recorded by scenario "2"'s
scan is present, because `if max_hop and hop > max_hop` treats the bound
0 as falsy and never prunes. -/
theorem rst_maxhop_zero_expands_beyond_root :
    rstNodes (renderScenarioTree chainMgr "3" (some 0)) = ["3", "2", "1"] ∧
    edgeLookup (rstEdges (renderScenarioTree chainMgr "3" (some 0))) ("1", "2")
      = some none := by
  decide

/-! ## C3 -/

/-- C3 (counterexample): `remove_scenario` on an absent id raises
Python's `KeyError` (escaping from `del self.scenarios[id]`), not the
`ScenarioNotFoundException` type. -/
theorem removeScenario_absent_raises_keyerror :
    removeScenario mgrEmpty "1" = .error (.keyError "1") ∧
    raisesNotFound (removeScenario mgrEmpty "1") = false := by
  decide

/-- C3 (amended): `remove_scenario` on an absent id raises `KeyError`;
on a known id it succeeds, and the recomputed catalogue contains no
achievement that is outside the world status and on no remaining
scenario (in particular none that existed only on the removed
scenario). -/
theorem removeScenario_spec (mgr : ScenarioManager) (i : String) :
    (pyContainsKey mgr.scenarios i = false →
      removeScenario mgr i = .error (.keyError i)) ∧
    (∀ mgr', removeScenario mgr i = .ok mgr' →
      ∀ a : Achievement, a ∉ mgr.worldStatus →
        (∀ s ∈ pyValues mgr'.scenarios, a ∉ s.achievements ∧ a ∉ s.requirements) →
        a ∉ mgr'.achievements) := by
  constructor
  · intro h
    simp [removeScenario, h]
  · intro mgr' hok a hws hrem
    by_cases h : pyContainsKey mgr.scenarios i = true
    · simp only [removeScenario, h, if_true] at hok
      cases hok
      intro hmem
      rw [mem_allAchievements] at hmem
      rcases hmem with ⟨sc, hsc, hin⟩ | ⟨sc, hsc, hin⟩ | hin
      · exact (hrem sc hsc).1 hin
      · exact (hrem sc hsc).2 hin
      · exact hws hin
    · simp only [removeScenario, h, if_false, Bool.not_eq_true] at hok
      simp at h
      simp [h] at hok

/-- C3 witness: removing the only scenario of `c3mgr` (which carries the
achievement "Gold (GROUP) CLOSED" found nowhere else) yields a manager
whose catalogue no longer contains it; and removal of the absent id "2"
raises `KeyError`. -/
theorem removeScenario_spec_witness :
    (removeScenario c3mgr "1" = .ok c3removed ∧
      goldClosed ∉ c3removed.achievements) ∧
    (pyContainsKey c3mgr.scenarios "2" = false ∧
      removeScenario c3mgr "2" = .error (.keyError "2")) :=
  ⟨⟨by decide,
    (removeScenario_spec c3mgr "1").2 c3removed (by decide) goldClosed
      (by decide) (by decide)⟩,
   ⟨by decide, (removeScenario_spec c3mgr "2").1 (by decide)⟩⟩

/-! ## C5 -/

/-- C5 (counterexample): `remove_world_status` with an absent value
raises Python's `ValueError` (escaping from `list.remove`), not the
`ScenarioNotFoundException` type. -/
theorem removeWorldStatus_absent_raises_valueerror :
    removeWorldStatus mgrEmpty goldOpen = .error .valueError ∧
    raisesNotFound (removeWorldStatus mgrEmpty goldOpen) = false := by
  decide

/-- C5 (amended): `remove_world_status` fails exactly on values not
present, but the failure is `ValueError`, not the scenario-not-found
exception type; on success the first occurrence of the exact value is
removed. -/
theorem removeWorldStatus_spec (mgr : ScenarioManager) (a : Achievement) :
    (a ∉ mgr.worldStatus →
      removeWorldStatus mgr a = .error .valueError) ∧
    (a ∈ mgr.worldStatus →
      removeWorldStatus mgr a =
        .ok { mgr with worldStatus := mgr.worldStatus.erase a }) := by
  constructor <;> intro h <;> simp [removeWorldStatus, h]

/-- C5 witness: instantiating both branches on concrete world
statuses. -/
theorem removeWorldStatus_spec_witness :
    (removeWorldStatus mgrEmpty goldOpen = .error .valueError) ∧
    (removeWorldStatus c6mgr silverOpen =
      .ok { c6mgr with worldStatus := [] }) :=
  ⟨(removeWorldStatus_spec mgrEmpty goldOpen).1 (by decide),
   by
    have h := (removeWorldStatus_spec c6mgr silverOpen).2 (by decide)
    simpa using h⟩

/-- The loop of `render_scenario_tree` depends on `max_hop` only through
the guard `if max_hop and hop > max_hop`. -/
theorem rstLoop_guard_congr (scs : List (String × Scenario))
    (mh1 mh2 : Option Nat) (hg : pyGuard mh1 = pyGuard mh2) :
    ∀ fuel work i edges nodes,
      rstLoop scs mh1 fuel work i edges nodes =
      rstLoop scs mh2 fuel work i edges nodes := by
  intro fuel
  induction fuel with
  | zero => intro work i e nd; rfl
  | succ n ih =>
    intro work i e nd
    simp only [rstLoop, hg]
    split
    · split
      · exact ih _ _ _ _
      · split
        · rfl
        · exact ih _ _ _ _
    · rfl

/-- C2 (amended): because Python's truthiness makes the bound 0 falsy in
`if max_hop and hop > max_hop`, calling the bounded traversal with
`max_hops = 0` is *identical* to calling it with no bound at all
(`max_hops = None`): the traversal expands past the root's immediate
predecessors instead of stopping at node R. -/
theorem rst_maxhop_zero_equals_unbounded (mgr : ScenarioManager)
    (root : String) :
    renderScenarioTree mgr root (some 0) = renderScenarioTree mgr root none := by
  unfold renderScenarioTree renderScenarioTreeFuel
  cases pyLookup mgr.scenarios root with
  | none => rfl
  | some r =>
    exact rstLoop_guard_congr mgr.scenarios (some 0) none
      (funext fun _ => rfl) _ _ _ _ _

/-! ## C9 -/

/-- C9: for a manager whose ids are all decimal-digit strings, `keys()`
returns the ids and `values()` the scenarios sorted ascending by the
integer value of the id; in particular ids ["2","10","1"] come out as
["1","2","10"], not in lexicographic order. -/
theorem keys_values_sorted_by_numeric_id (mgr : ScenarioManager)
    (_h : ∀ k ∈ mgr.scenarios.map Prod.fst, pyIsNumeric k = true) :
    mgr.keys.Perm (mgr.scenarios.map Prod.fst) ∧
    mgr.keys.Pairwise (fun a b => pyInt a ≤ pyInt b) ∧
    mgr.values.Perm (pyValues mgr.scenarios) ∧
    mgr.values.Pairwise (fun a b => pyInt a.id ≤ pyInt b.id) ∧
    c9mgr.keys = ["1", "2", "10"] := by
  refine ⟨List.perm_insertionSort _ _, ?_, List.perm_insertionSort _ _, ?_, by decide⟩
  · haveI : IsTotal String (fun a b => pyInt a ≤ pyInt b) :=
      ⟨fun a b => Nat.le_total _ _⟩
    haveI : IsTrans String (fun a b => pyInt a ≤ pyInt b) :=
      ⟨fun _ _ _ => Nat.le_trans⟩
    exact List.sorted_insertionSort _ _
  · haveI : IsTotal Scenario (fun a b => pyInt a.id ≤ pyInt b.id) :=
      ⟨fun a b => Nat.le_total _ _⟩
    haveI : IsTrans Scenario (fun a b => pyInt a.id ≤ pyInt b.id) :=
      ⟨fun _ _ _ => Nat.le_trans⟩
    exact List.sorted_insertionSort _ _

/-- C9 witness: the numeric-ids hypothesis holds of `c9mgr` and the
sorted outputs are as the claim's example demands. -/
theorem keys_values_sorted_by_numeric_id_witness :
    (∀ k ∈ c9mgr.scenarios.map Prod.fst, pyIsNumeric k = true) ∧
    c9mgr.keys.Perm (c9mgr.scenarios.map Prod.fst) ∧
    c9mgr.keys = ["1", "2", "10"] :=
  ⟨by decide,
   (keys_values_sorted_by_numeric_id c9mgr (by decide)).1,
   (keys_values_sorted_by_numeric_id c9mgr (by decide)).2.2.2.2⟩

/-! ## C6: the eviction loop of `add_world_status` -/

theorem evictSimple_nil (nm : String) : evictSimple nm [] = [] := by
  rw [evictSimple.eq_def]

theorem evictSimple_pos_nil (nm : String) (a : Achievement)
    (hname : a.name = nm) : evictSimple nm [a] = [] := by
  rw [evictSimple.eq_def]
  simp [hname]

theorem evictSimple_pos_cons (nm : String) (a b : Achievement)
    (rest' : List Achievement) (hname : a.name = nm) :
    evictSimple nm (a :: b :: rest') = b :: evictSimple nm rest' := by
  rw [evictSimple.eq_def]
  simp [hname]

theorem evictSimple_neg (nm : String) (a : Achievement)
    (rest : List Achievement) (hname : ¬(a.name = nm)) :
    evictSimple nm (a :: rest) = a :: evictSimple nm rest := by
  rw [evictSimple.eq_def]
  simp [hname]

/-- `evictSimple` never introduces elements: it is a sublist. -/
theorem evictSimple_sublist_aux (nm : String) :
    ∀ (n : Nat) (l : List Achievement), l.length ≤ n →
      List.Sublist (evictSimple nm l) l := by
  intro n
  induction n with
  | zero =>
    intro l hl
    cases l with
    | nil => simp [evictSimple_nil]
    | cons a rest => simp at hl
  | succ n ih =>
    intro l hl
    cases l with
    | nil => simp [evictSimple_nil]
    | cons a rest =>
      by_cases hname : a.name = nm
      · cases rest with
        | nil =>
          rw [evictSimple_pos_nil nm a hname]
          exact List.nil_sublist _
        | cons b rest' =>
          rw [evictSimple_pos_cons nm a b rest' hname]
          have hs : List.Sublist (evictSimple nm rest') rest' := by
            refine ih rest' ?_
            simp at hl
            omega
          exact List.Sublist.trans (hs.cons₂ b) (List.sublist_cons_self a (b :: rest'))
      · rw [evictSimple_neg nm a rest hname]
        refine (ih rest ?_).cons₂ a
        simp at hl
        omega

theorem evictSimple_sublist (nm : String) (l : List Achievement) :
    List.Sublist (evictSimple nm l) l :=
  evictSimple_sublist_aux nm l.length l le_rfl

/-- On a list whose names are pairwise distinct, eviction removes every
element named `nm`: nothing named `nm` survives. -/
theorem evictSimple_no_match_aux (nm : String) :
    ∀ (n : Nat) (l : List Achievement), l.length ≤ n →
      l.Pairwise (fun x y => x.name ≠ y.name) →
      ∀ x ∈ evictSimple nm l, x.name ≠ nm := by
  intro n
  induction n with
  | zero =>
    intro l hl hp x hx
    cases l with
    | nil => rw [evictSimple_nil] at hx; simp at hx
    | cons a rest => simp at hl
  | succ n ih =>
    intro l hl hp x hx
    cases l with
    | nil => rw [evictSimple_nil] at hx; simp at hx
    | cons a rest =>
      rw [List.pairwise_cons] at hp
      by_cases hname : a.name = nm
      · cases rest with
        | nil =>
          rw [evictSimple_pos_nil nm a hname] at hx
          simp at hx
        | cons b rest' =>
          rw [evictSimple_pos_cons nm a b rest' hname] at hx
          rcases List.mem_cons.mp hx with rfl | hx'
          · have hab : a.name ≠ x.name := hp.1 x (by simp)
            rw [hname] at hab
            exact fun hc => hab hc.symm
          · refine ih rest' (by simp at hl; omega) ?_ x hx'
            exact (List.pairwise_cons.mp hp.2).2
      · rw [evictSimple_neg nm a rest hname] at hx
        rcases List.mem_cons.mp hx with rfl | hx'
        · exact hname
        · exact ih rest (by simp at hl; omega) hp.2 x hx'

theorem evictSimple_no_match (nm : String) (l : List Achievement)
    (hp : l.Pairwise (fun x y => x.name ≠ y.name)) :
    ∀ x ∈ evictSimple nm l, x.name ≠ nm :=
  evictSimple_no_match_aux nm l.length l le_rfl hp

/-- With pairwise distinct names, erasing the element at position `i`
removes exactly that position (`list.remove` removes the first *equal*
element, and equality forces equal names, so no earlier position can
match). -/
theorem erase_get_pairwise :
    ∀ (l : List Achievement) (i : Nat) (h : i < l.length),
      l.Pairwise (fun x y => x.name ≠ y.name) →
      l.erase (l.get ⟨i, h⟩) = l.take i ++ l.drop (i + 1) := by
  intro l
  induction l with
  | nil => intro i h; simp at h
  | cons x t iht =>
    intro i h hp
    rw [List.pairwise_cons] at hp
    cases i with
    | zero => simp
    | succ i =>
      have ht : i < t.length := by simpa using h
      have hm : t.get ⟨i, ht⟩ ∈ t := t.get_mem i ht
      have hx : x.name ≠ (t.get ⟨i, ht⟩).name := hp.1 _ hm
      have hne : ¬(x == t.get ⟨i, ht⟩) := by
        simp only [beq_iff_eq]
        intro hc
        rw [hc] at hx
        exact hx rfl
      have hget : (x :: t).get ⟨i + 1, h⟩ = t.get ⟨i, ht⟩ := rfl
      rw [hget, List.erase_cons_tail hne, iht i ht hp.2]
      rfl

/-- The fuelled index loop coincides with the structural recursion
`evictSimple` on lists with pairwise distinct names, as soon as the fuel
covers the distance to the end of the list. -/
theorem evictLoop_eq_evictSimple (nm : String) :
    ∀ (fuel i : Nat) (ws : List Achievement),
      ws.Pairwise (fun x y => x.name ≠ y.name) →
      ws.length - i ≤ fuel →
      evictLoop nm fuel ws i = ws.take i ++ evictSimple nm (ws.drop i) := by
  intro fuel
  induction fuel with
  | zero =>
    intro i ws hp hf
    have hi : ws.length ≤ i := by omega
    rw [evictLoop, List.take_of_length_le hi, List.drop_eq_nil_of_le hi]
    simp [evictSimple_nil]
  | succ n ih =>
    intro i ws hp hf
    rw [evictLoop]
    by_cases h : i < ws.length
    · rw [dif_pos h]
      by_cases hname : (ws.get ⟨i, h⟩).name = nm
      · rw [if_pos hname]
        have herase : ws.erase (ws.get ⟨i, h⟩) = ws.take i ++ ws.drop (i + 1) :=
          erase_get_pairwise ws i h hp
        have hsub : List.Sublist (ws.take i ++ ws.drop (i + 1)) ws := by
          rw [← herase]
          exact List.erase_sublist _ _
        have hp' : (ws.take i ++ ws.drop (i + 1)).Pairwise
            (fun x y => x.name ≠ y.name) := List.Pairwise.sublist hsub hp
        have hlt : (ws.take i).length = i := by
          rw [List.length_take]
          omega
        have hlen : (ws.take i ++ ws.drop (i + 1)).length = ws.length - 1 := by
          rw [List.length_append, List.length_drop, hlt]
          omega
        rw [herase, ih (i + 1) _ hp' (by omega)]
        rw [List.take_append_eq_append_take, List.drop_append_eq_append_drop, hlt]
        have h1 : (ws.take i).take (i + 1) = ws.take i :=
          List.take_of_length_le (by omega)
        have h2 : (ws.take i).drop (i + 1) = [] :=
          List.drop_eq_nil_of_le (by omega)
        rw [h1, h2]
        rw [List.get_eq_getElem] at hname
        have hdrop : ws.drop i = ws[i] :: ws.drop (i + 1) :=
          List.drop_eq_getElem_cons h
        rw [hdrop]
        have hone : i + 1 - i = 1 := by omega
        rw [hone]
        cases hrest : ws.drop (i + 1) with
        | nil =>
          rw [evictSimple_pos_nil nm ws[i] hname]
          simp [evictSimple_nil]
        | cons b rest' =>
          rw [evictSimple_pos_cons nm ws[i] b rest' hname]
          simp [evictSimple_nil]
      · rw [if_neg hname]
        rw [ih (i + 1) ws hp (by omega)]
        rw [List.get_eq_getElem] at hname
        have hdrop : ws.drop i = ws[i] :: ws.drop (i + 1) :=
          List.drop_eq_getElem_cons h
        rw [hdrop, evictSimple_neg nm ws[i] _ hname]
        have htake : ws.take (i + 1) = ws.take i ++ [ws[i]] := by
          rw [List.take_succ, List.getElem?_eq_getElem h]
          rfl
        rw [htake, List.append_assoc]
        rfl
    · rw [dif_neg h]
      have hi : ws.length ≤ i := by omega
      rw [List.take_of_length_le hi, List.drop_eq_nil_of_le hi]
      simp [evictSimple_nil]

theorem evictByName_eq_evictSimple (nm : String) (ws : List Achievement)
    (hp : ws.Pairwise (fun x y => x.name ≠ y.name)) :
    evictByName ws 0 nm = evictSimple nm ws := by
  unfold evictByName
  rw [evictLoop_eq_evictSimple nm (ws.length - 0) 0 ws hp le_rfl]
  simp

/-- With pairwise distinct names, the only entry carrying `a.name` is
`a` itself. -/
theorem filter_name_unique (ws : List Achievement) (a : Achievement)
    (hp : ws.Pairwise (fun x y => x.name ≠ y.name)) (ha : a ∈ ws) :
    ws.filter (fun x => decide (x.name = a.name)) = [a] := by
  induction ws with
  | nil => simp at ha
  | cons x t iht =>
    rw [List.pairwise_cons] at hp
    rcases List.mem_cons.mp ha with rfl | hat
    · rw [List.filter_cons_of_pos (by simp)]
      have hnil : t.filter (fun x => decide (x.name = a.name)) = [] := by
        rw [List.filter_eq_nil_iff]
        intro y hy
        simp only [decide_eq_true_eq]
        exact fun hc => (hp.1 y hy) hc.symm
      rw [hnil]
    · have hxa : x.name ≠ a.name := hp.1 a hat
      rw [List.filter_cons_of_neg (by simpa using hxa)]
      exact iht hp.2 hat

/-- The world status after `add_world_status`. -/
theorem addWorldStatus_worldStatus (mgr : ScenarioManager) (a : Achievement) :
    (addWorldStatus mgr a).worldStatus =
      if a ∈ mgr.worldStatus then mgr.worldStatus
      else evictByName mgr.worldStatus 0 a.name ++ [a] := by
  rw [addWorldStatus]
  split <;> rfl

/-- One `add_world_status` step on a pairwise-named world status keeps
the names pairwise distinct and leaves exactly `a` as the entry named
`a.name`. -/
theorem addStep_pairwise_filter (ws : List Achievement) (a : Achievement)
    (hp : ws.Pairwise (fun x y => x.name ≠ y.name)) :
    (if a ∈ ws then ws else evictByName ws 0 a.name ++ [a]).Pairwise
        (fun x y => x.name ≠ y.name) ∧
    (if a ∈ ws then ws else evictByName ws 0 a.name ++ [a]).filter
        (fun x => decide (x.name = a.name)) = [a] := by
  by_cases hm : a ∈ ws
  · rw [if_pos hm]
    exact ⟨hp, filter_name_unique ws a hp hm⟩
  · rw [if_neg hm]
    rw [evictByName_eq_evictSimple a.name ws hp]
    have hno := evictSimple_no_match a.name ws hp
    have hsub := evictSimple_sublist a.name ws
    constructor
    · rw [List.pairwise_append]
      refine ⟨List.Pairwise.sublist hsub hp, by simp, ?_⟩
      intro x hx y hy
      simp only [List.mem_singleton] at hy
      subst hy
      exact hno x hx
    · rw [List.filter_append]
      rw [List.filter_eq_nil_iff.mpr ?_]
      · simp
      · intro y hy
        simp only [decide_eq_true_eq]
        exact hno y hy

/-- C6: starting from a world status with at most one entry per name,
adding `Achievement("Gold",GROUP,OPEN)` and then
`Achievement("Gold",GROUP,CLOSED)` leaves exactly one entry named
"Gold", which is the CLOSED one; and adding any value already present
(same full triple) changes nothing. -/
theorem addWorldStatus_unique_by_name (mgr : ScenarioManager)
    (hp : mgr.worldStatus.Pairwise (fun x y => x.name ≠ y.name)) :
    ((addWorldStatus (addWorldStatus mgr goldOpen) goldClosed).worldStatus.filter
        (fun x => decide (x.name = "Gold")) = [goldClosed]) ∧
    ∀ a ∈ mgr.worldStatus, addWorldStatus mgr a = mgr := by
  constructor
  · have h1 := addWorldStatus_worldStatus mgr goldOpen
    have s1 := addStep_pairwise_filter mgr.worldStatus goldOpen hp
    have h2 := addWorldStatus_worldStatus (addWorldStatus mgr goldOpen) goldClosed
    rw [h1] at h2
    have s2 := addStep_pairwise_filter
      (if goldOpen ∈ mgr.worldStatus then mgr.worldStatus
       else evictByName mgr.worldStatus 0 goldOpen.name ++ [goldOpen])
      goldClosed s1.1
    rw [h2]
    have hpred : (fun x : Achievement => decide (x.name = "Gold")) =
        (fun x => decide (x.name = goldClosed.name)) := rfl
    rw [hpred]
    exact s2.2
  · intro a ha
    rw [addWorldStatus, if_pos ha]

/-- C6 witness: over the concrete world status `[silverOpen]` the
Gold chain leaves exactly the CLOSED entry, and re-adding the present
value is the identity. -/
theorem addWorldStatus_unique_by_name_witness :
    ((addWorldStatus (addWorldStatus c6mgr goldOpen) goldClosed).worldStatus.filter
        (fun x => decide (x.name = "Gold")) = [goldClosed]) ∧
    addWorldStatus c6mgr silverOpen = c6mgr :=
  ⟨(addWorldStatus_unique_by_name c6mgr (by simp [c6mgr])).1,
   (addWorldStatus_unique_by_name c6mgr (by simp [c6mgr])).2 silverOpen (by simp [c6mgr])⟩

/-! ## C4: linker analysis -/

theorem containsKey_iff_mem_fst {β : Type} (m : List (String × β)) (k : String) :
    pyContainsKey m k = true ↔ k ∈ m.map Prod.fst := by
  simp only [pyContainsKey, List.any_eq_true, decide_eq_true_eq, List.mem_map]

theorem containsKey_congr {m m' : List (String × Scenario)}
    (h : m.map Prod.fst = m'.map Prod.fst) (k : String) :
    pyContainsKey m k = pyContainsKey m' k := by
  rw [Bool.eq_iff_iff, containsKey_iff_mem_fst, containsKey_iff_mem_fst, h]

theorem mem_pySetAdd_self (l : List String) (x : String) : x ∈ pySetAdd l x := by
  unfold pySetAdd
  split
  · assumption
  · simp

theorem mem_pySetAdd_of_mem (l : List String) (x y : String) (h : y ∈ l) :
    y ∈ pySetAdd l x := by
  unfold pySetAdd
  split
  · exact h
  · simp [h]

theorem pySetAdd_of_mem {l : List String} {x : String} (h : x ∈ l) :
    pySetAdd l x = l := if_pos h

theorem keyedUpdate_fst (m : List (String × Scenario)) (t : String)
    (f : Scenario → Scenario) :
    (m.map (fun p => if p.1 = t then (p.1, f p.2) else p)).map Prod.fst =
      m.map Prod.fst := by
  induction m with
  | nil => rfl
  | cons p rest ih =>
    simp only [List.map_cons]
    rw [ih]
    congr 1
    split <;> rfl

theorem dictAddPred_fst (m : List (String × Scenario)) (t i : String) :
    (dictAddPred m t i).map Prod.fst = m.map Prod.fst :=
  keyedUpdate_fst m t (fun s => addPred s i)

theorem linkStep_fst (acc : List (String × Scenario) × List Scenario)
    (sc : Scenario) (t : String) :
    (linkStep acc sc t).1.map Prod.fst = acc.1.map Prod.fst := by
  unfold linkStep
  split
  · split
    · exact dictAddPred_fst acc.1 t sc.id
    · rfl
  · rfl

theorem linkStep_containsKey (acc : List (String × Scenario) × List Scenario)
    (sc : Scenario) (t k : String) :
    pyContainsKey (linkStep acc sc t).1 k = pyContainsKey acc.1 k :=
  containsKey_congr (linkStep_fst acc sc t) k

theorem linkStep_news_mono (acc : List (String × Scenario) × List Scenario)
    (sc : Scenario) (t : String) (x : Scenario) (hx : x ∈ acc.2) :
    x ∈ (linkStep acc sc t).2 := by
  unfold linkStep
  split
  · split
    · exact hx
    · simp [hx]
  · exact hx

theorem linkStep_news_succ_nil (acc : List (String × Scenario) × List Scenario)
    (sc : Scenario) (t : String) (h : ∀ s ∈ acc.2, s.successors = []) :
    ∀ s ∈ (linkStep acc sc t).2, s.successors = [] := by
  unfold linkStep
  split
  · split
    · exact h
    · intro s hs
      rcases List.mem_append.mp hs with hs' | hs'
      · exact h s hs'
      · simp only [List.mem_singleton] at hs'
        subst hs'
        rfl
  · exact h

theorem linkStep_entry_src (acc : List (String × Scenario) × List Scenario)
    (sc : Scenario) (t : String) :
    ∀ q ∈ (linkStep acc sc t).1, ∃ p ∈ acc.1,
      q.1 = p.1 ∧ q.2.id = p.2.id ∧ q.2.successors = p.2.successors ∧
      ∀ x ∈ p.2.predecessors, x ∈ q.2.predecessors := by
  intro q hq
  unfold linkStep at hq
  have hid : ∀ q' ∈ acc.1, (hq' : q = q') → ∃ p ∈ acc.1,
      q.1 = p.1 ∧ q.2.id = p.2.id ∧ q.2.successors = p.2.successors ∧
      ∀ x ∈ p.2.predecessors, x ∈ q.2.predecessors := by
    intro q' hq' heq
    subst heq
    exact ⟨q, hq', rfl, rfl, rfl, fun x hx => hx⟩
  split at hq
  · split at hq
    · unfold dictAddPred at hq
      rcases List.mem_map.mp hq with ⟨p, hp, hpe⟩
      refine ⟨p, hp, ?_⟩
      by_cases hk : p.1 = t
      · rw [if_pos hk] at hpe
        subst hpe
        exact ⟨rfl, rfl, rfl, fun x hx => mem_pySetAdd_of_mem _ _ _ hx⟩
      · rw [if_neg hk] at hpe
        subst hpe
        exact ⟨rfl, rfl, rfl, fun x hx => hx⟩
    · exact hid q hq rfl
  · exact hid q hq rfl

theorem linkStep_links (acc : List (String × Scenario) × List Scenario)
    (sc : Scenario) (t : String) (hnum : pyIsNumeric t = true)
    (hc : pyContainsKey acc.1 t = true) :
    ∀ p ∈ (linkStep acc sc t).1, p.1 = t → sc.id ∈ p.2.predecessors := by
  intro p hp hpt
  unfold linkStep at hp
  rw [if_pos hnum, if_pos hc] at hp
  unfold dictAddPred at hp
  rcases List.mem_map.mp hp with ⟨p0, hp0, hpe⟩
  by_cases hk : p0.1 = t
  · rw [if_pos hk] at hpe
    subst hpe
    exact mem_pySetAdd_self _ _
  · rw [if_neg hk] at hpe
    subst hpe
    exact absurd hpt hk

theorem linkStep_stub (acc : List (String × Scenario) × List Scenario)
    (sc : Scenario) (t : String) (hnum : pyIsNumeric t = true)
    (hc : pyContainsKey acc.1 t = false) :
    (linkStep acc sc t).2 =
      acc.2 ++ [{ id := t, predecessors := [sc.id] }] := by
  unfold linkStep
  rw [if_pos hnum, if_neg (by simp [hc])]

theorem map_id_of_mem {α : Type} (l : List α) (f : α → α)
    (h : ∀ x ∈ l, f x = x) : l.map f = l := by
  induction l with
  | nil => rfl
  | cons a rest ih =>
    simp only [List.map_cons]
    rw [h a (by simp), ih (fun x hx => h x (by simp [hx]))]

theorem linkStep_id (m : List (String × Scenario)) (ns : List Scenario)
    (sc : Scenario) (t : String)
    (h : pyIsNumeric t = true →
      pyContainsKey m t = true ∧ ∀ p ∈ m, p.1 = t → sc.id ∈ p.2.predecessors) :
    linkStep (m, ns) sc t = (m, ns) := by
  unfold linkStep
  by_cases hnum : pyIsNumeric t = true
  · rw [if_pos hnum]
    obtain ⟨hc, hl⟩ := h hnum
    rw [if_pos hc]
    unfold dictAddPred
    rw [map_id_of_mem]
    intro p hp
    by_cases hk : p.1 = t
    · have haddp : addPred p.2 sc.id = p.2 := by
        unfold addPred
        rw [pySetAdd_of_mem (hl p hp hk)]
      rw [if_pos hk, haddp]
    · rw [if_neg hk]
  · rw [if_neg hnum]

/-- The nested successor loop equals a single fold over the flattened
pair list. -/
theorem linkPass_eq_foldl :
    ∀ (vals : List Scenario) (acc : List (String × Scenario) × List Scenario),
      linkPass vals acc =
        (succPairs vals).foldl (fun a p => linkStep a p.1 p.2) acc := by
  intro vals
  induction vals with
  | nil => intro acc; rfl
  | cons sc rest ih =>
    intro acc
    show linkPass rest (sc.successors.foldl (fun a2 t => linkStep a2 sc t) acc) = _
    rw [ih]
    have hsp : succPairs (sc :: rest) =
        sc.successors.map (fun t => (sc, t)) ++ succPairs rest := by
      simp [succPairs]
    rw [hsp, List.foldl_append, List.foldl_map]

theorem foldLink_fst :
    ∀ (pairs : List (Scenario × String))
      (acc : List (String × Scenario) × List Scenario),
      ((pairs.foldl (fun a p => linkStep a p.1 p.2) acc).1).map Prod.fst =
        acc.1.map Prod.fst := by
  intro pairs
  induction pairs with
  | nil => intro acc; rfl
  | cons q rest ih =>
    intro acc
    rw [List.foldl_cons, ih, linkStep_fst]

theorem foldLink_containsKey (pairs : List (Scenario × String))
    (acc : List (String × Scenario) × List Scenario) (k : String) :
    pyContainsKey (pairs.foldl (fun a p => linkStep a p.1 p.2) acc).1 k =
      pyContainsKey acc.1 k :=
  containsKey_congr (foldLink_fst pairs acc) k

theorem foldLink_news_mono :
    ∀ (pairs : List (Scenario × String))
      (acc : List (String × Scenario) × List Scenario) (x : Scenario),
      x ∈ acc.2 → x ∈ (pairs.foldl (fun a p => linkStep a p.1 p.2) acc).2 := by
  intro pairs
  induction pairs with
  | nil => intro acc x hx; exact hx
  | cons q rest ih =>
    intro acc x hx
    rw [List.foldl_cons]
    exact ih _ x (linkStep_news_mono acc q.1 q.2 x hx)

theorem foldLink_news_succ_nil :
    ∀ (pairs : List (Scenario × String))
      (acc : List (String × Scenario) × List Scenario),
      (∀ s ∈ acc.2, s.successors = []) →
      ∀ s ∈ (pairs.foldl (fun a p => linkStep a p.1 p.2) acc).2,
        s.successors = [] := by
  intro pairs
  induction pairs with
  | nil => intro acc h; exact h
  | cons q rest ih =>
    intro acc h
    rw [List.foldl_cons]
    exact ih _ (linkStep_news_succ_nil acc q.1 q.2 h)

theorem foldLink_entry_src :
    ∀ (pairs : List (Scenario × String))
      (acc : List (String × Scenario) × List Scenario),
      ∀ q ∈ (pairs.foldl (fun a p => linkStep a p.1 p.2) acc).1,
        ∃ p ∈ acc.1, q.1 = p.1 ∧ q.2.id = p.2.id ∧
          q.2.successors = p.2.successors ∧
          ∀ x ∈ p.2.predecessors, x ∈ q.2.predecessors := by
  intro pairs
  induction pairs with
  | nil =>
    intro acc q hq
    exact ⟨q, hq, rfl, rfl, rfl, fun x hx => hx⟩
  | cons q0 rest ih =>
    intro acc q hq
    rw [List.foldl_cons] at hq
    obtain ⟨pmid, hpmid, he1, he2, he3, he4⟩ := ih _ q hq
    obtain ⟨p, hp, hf1, hf2, hf3, hf4⟩ :=
      linkStep_entry_src acc q0.1 q0.2 pmid hpmid
    exact ⟨p, hp, he1.trans hf1, he2.trans hf2, he3.trans hf3,
      fun x hx => he4 x (hf4 x hx)⟩

theorem foldLink_pred_pres (pairs : List (Scenario × String))
    (acc : List (String × Scenario) × List Scenario) (t i : String)
    (h : ∀ p ∈ acc.1, p.1 = t → i ∈ p.2.predecessors) :
    ∀ q ∈ (pairs.foldl (fun a p => linkStep a p.1 p.2) acc).1,
      q.1 = t → i ∈ q.2.predecessors := by
  intro q hq hqt
  obtain ⟨p, hp, he1, _, _, he4⟩ := foldLink_entry_src pairs acc q hq
  exact he4 i (h p hp (he1 ▸ hqt))

theorem foldLink_processes :
    ∀ (pairs : List (Scenario × String))
      (acc : List (String × Scenario) × List Scenario)
      (sc : Scenario) (t : String),
      (sc, t) ∈ pairs → pyIsNumeric t = true →
      (pyContainsKey acc.1 t = true →
        ∀ q ∈ (pairs.foldl (fun a p => linkStep a p.1 p.2) acc).1,
          q.1 = t → sc.id ∈ q.2.predecessors) ∧
      (pyContainsKey acc.1 t = false →
        ∃ s ∈ (pairs.foldl (fun a p => linkStep a p.1 p.2) acc).2, s.id = t) := by
  intro pairs
  induction pairs with
  | nil =>
    intro acc sc t hmem
    simp at hmem
  | cons q0 rest ih =>
    intro acc sc t hmem hnum
    rcases List.mem_cons.mp hmem with heq | htail
    · subst heq
      constructor
      · intro hc
        rw [List.foldl_cons]
        refine foldLink_pred_pres rest _ t sc.id ?_
        exact linkStep_links acc sc t hnum hc
      · intro hc
        rw [List.foldl_cons]
        refine ⟨{ id := t, predecessors := [sc.id] },
          foldLink_news_mono rest _ _ ?_, rfl⟩
        show ({ id := t, predecessors := [sc.id] } : Scenario) ∈
          (linkStep acc sc t).2
        rw [linkStep_stub acc sc t hnum hc]
        simp
    · have hck := linkStep_containsKey acc q0.1 q0.2 t
      constructor
      · intro hc
        rw [List.foldl_cons]
        exact ((ih (linkStep acc q0.1 q0.2) sc t htail hnum).1 (by rw [hck]; exact hc))
      · intro hc
        rw [List.foldl_cons]
        exact ((ih (linkStep acc q0.1 q0.2) sc t htail hnum).2 (by rw [hck]; exact hc))

theorem linkStep_news_of_contains (acc : List (String × Scenario) × List Scenario)
    (sc : Scenario) (t : String)
    (h : pyIsNumeric t = true → pyContainsKey acc.1 t = true) :
    (linkStep acc sc t).2 = acc.2 := by
  unfold linkStep
  by_cases hnum : pyIsNumeric t = true
  · rw [if_pos hnum, if_pos (h hnum)]
  · rw [if_neg hnum]

theorem foldLink_news_nil :
    ∀ (pairs : List (Scenario × String))
      (acc : List (String × Scenario) × List Scenario),
      (∀ q ∈ pairs, pyIsNumeric q.2 = true → pyContainsKey acc.1 q.2 = true) →
      (pairs.foldl (fun a p => linkStep a p.1 p.2) acc).2 = acc.2 := by
  intro pairs
  induction pairs with
  | nil => intro acc _; rfl
  | cons q0 rest ih =>
    intro acc h
    rw [List.foldl_cons]
    rw [ih _ ?_, linkStep_news_of_contains acc q0.1 q0.2 (h q0 (by simp))]
    intro q hq hnum
    rw [linkStep_containsKey]
    exact h q (by simp [hq]) hnum

theorem foldLink_acc_id :
    ∀ (pairs : List (Scenario × String)) (m : List (String × Scenario))
      (ns : List Scenario),
      (∀ q ∈ pairs, pyIsNumeric q.2 = true →
        pyContainsKey m q.2 = true ∧
        ∀ p ∈ m, p.1 = q.2 → q.1.id ∈ p.2.predecessors) →
      pairs.foldl (fun a p => linkStep a p.1 p.2) (m, ns) = (m, ns) := by
  intro pairs
  induction pairs with
  | nil => intro m ns _; rfl
  | cons q0 rest ih =>
    intro m ns h
    rw [List.foldl_cons, linkStep_id m ns q0.1 q0.2 (h q0 (by simp))]
    exact ih m ns (fun q hq => h q (by simp [hq]))

theorem mem_succPairs (vals : List Scenario) (sc : Scenario) (t : String) :
    (sc, t) ∈ succPairs vals ↔ sc ∈ vals ∧ t ∈ sc.successors := by
  unfold succPairs
  rw [List.mem_flatMap]
  constructor
  · rintro ⟨a, ha, hm⟩
    rcases List.mem_map.mp hm with ⟨t', ht', he⟩
    obtain ⟨h1, h2⟩ := Prod.mk.injEq .. ▸ he
    · exact ⟨h1 ▸ ha, h1 ▸ h2 ▸ ht'⟩
  · rintro ⟨hsc, ht⟩
    exact ⟨sc, hsc, List.mem_map.mpr ⟨t, ht, rfl⟩⟩

theorem containsKey_dictSet (m : List (String × Scenario)) (k : String)
    (v : Scenario) (x : String) :
    pyContainsKey (dictSet m k v) x = true ↔
      pyContainsKey m x = true ∨ x = k := by
  unfold dictSet
  by_cases hm : pyContainsKey m k = true
  · rw [if_pos hm]
    rw [Bool.eq_iff_iff.mp (containsKey_congr (keyedUpdate_fst m k (fun _ => v)) x)]
    constructor
    · exact Or.inl
    · rintro (h | rfl)
      · exact h
      · exact hm
  · rw [if_neg hm]
    simp only [pyContainsKey, List.any_append, List.any_cons, List.any_nil,
      Bool.or_false, Bool.or_eq_true, List.any_eq_true, decide_eq_true_eq]
    constructor
    · rintro (⟨p, hp, rfl⟩ | hkx)
      · exact Or.inl ⟨p, hp, rfl⟩
      · exact Or.inr hkx.symm
    · rintro (⟨p, hp, rfl⟩ | rfl)
      · exact Or.inl ⟨p, hp, rfl⟩
      · exact Or.inr rfl

theorem dictSet_val_src (m : List (String × Scenario)) (k : String)
    (v : Scenario) : ∀ q ∈ dictSet m k v, q.2 ∈ pyValues m ∨ q.2 = v := by
  intro q hq
  unfold dictSet at hq
  split at hq
  · rcases List.mem_map.mp hq with ⟨p, hp, hpe⟩
    by_cases hk : p.1 = k
    · rw [if_pos hk] at hpe
      subst hpe
      exact Or.inr rfl
    · rw [if_neg hk] at hpe
      subst hpe
      exact Or.inl (List.mem_map.mpr ⟨p, hp, rfl⟩)
  · rcases List.mem_append.mp hq with hq' | hq'
    · exact Or.inl (List.mem_map.mpr ⟨q, hq', rfl⟩)
    · simp only [List.mem_singleton] at hq'
      subst hq'
      exact Or.inr rfl

theorem newsFold_containsKey :
    ∀ (news : List Scenario) (m : List (String × Scenario)) (x : String),
      pyContainsKey (news.foldl (fun mm sc => dictSet mm sc.id sc) m) x = true ↔
        pyContainsKey m x = true ∨ ∃ s ∈ news, s.id = x := by
  intro news
  induction news with
  | nil =>
    intro m x
    simp
  | cons s0 rest ih =>
    intro m x
    rw [List.foldl_cons, ih, containsKey_dictSet]
    constructor
    · rintro ((hc | hx) | ⟨s, hs, hsx⟩)
      · exact Or.inl hc
      · exact Or.inr ⟨s0, by simp, hx.symm⟩
      · exact Or.inr ⟨s, by simp [hs], hsx⟩
    · rintro (hc | ⟨s, hs, hsx⟩)
      · exact Or.inl (Or.inl hc)
      · rcases List.mem_cons.mp hs with rfl | hs'
        · exact Or.inl (Or.inr hsx.symm)
        · exact Or.inr ⟨s, hs', hsx⟩

theorem newsFold_val_src :
    ∀ (news : List Scenario) (m : List (String × Scenario)) (v : Scenario),
      v ∈ pyValues (news.foldl (fun mm sc => dictSet mm sc.id sc) m) →
        v ∈ pyValues m ∨ v ∈ news := by
  intro news
  induction news with
  | nil =>
    intro m v hv
    exact Or.inl hv
  | cons s0 rest ih =>
    intro m v hv
    rw [List.foldl_cons] at hv
    rcases ih _ v hv with hv' | hv'
    · rcases List.mem_map.mp hv' with ⟨q, hq, hqe⟩
      rcases dictSet_val_src m s0.id s0 q hq with hsrc | hsrc
      · exact Or.inl (hqe ▸ hsrc)
      · exact Or.inr (by simp [← hqe, hsrc])
    · exact Or.inr (by simp [hv'])

theorem linkScenarios_eq (m : List (String × Scenario)) :
    linkScenarios m =
      ((succPairs (pyValues m)).foldl (fun a p => linkStep a p.1 p.2) (m, [])).2.foldl
        (fun mm sc => dictSet mm sc.id sc)
        ((succPairs (pyValues m)).foldl (fun a p => linkStep a p.1 p.2) (m, [])).1 := by
  simp only [linkScenarios, linkPass_eq_foldl]

theorem linkScenarios_values_src (m : List (String × Scenario)) :
    ∀ sc' ∈ pyValues (linkScenarios m),
      (∃ p ∈ m, sc'.id = p.2.id ∧ sc'.successors = p.2.successors) ∨
      sc'.successors = [] := by
  intro sc' hsc'
  rw [linkScenarios_eq] at hsc'
  rcases newsFold_val_src _ _ _ hsc' with hv | hv
  · rcases List.mem_map.mp hv with ⟨q, hq, hqe⟩
    obtain ⟨p, hp, _, h2, h3, _⟩ := foldLink_entry_src _ (m, []) q hq
    exact Or.inl ⟨p, hp, hqe ▸ h2, hqe ▸ h3⟩
  · exact Or.inr (foldLink_news_succ_nil _ (m, []) (by intro s hs; simp at hs)
      sc' hv)

theorem linkScenarios_containsKey_mono (m : List (String × Scenario))
    (k : String) (h : pyContainsKey m k = true) :
    pyContainsKey (linkScenarios m) k = true := by
  rw [linkScenarios_eq, newsFold_containsKey]
  rw [foldLink_containsKey]
  exact Or.inl h

/-- After one run of the linker, every numeric successor mentioned by
any stored scenario exists as a key. -/
theorem linkScenarios_allPresent (m : List (String × Scenario)) :
    AllPresent (linkScenarios m) := by
  intro sc' hsc' t ht hnum
  rcases linkScenarios_values_src m sc' hsc' with ⟨p, hp, _, hsucc⟩ | hnil
  · rw [hsucc] at ht
    have hpair : (p.2, t) ∈ succPairs (pyValues m) :=
      (mem_succPairs _ _ _).mpr ⟨List.mem_map.mpr ⟨p, hp, rfl⟩, ht⟩
    by_cases hc : pyContainsKey m t = true
    · exact linkScenarios_containsKey_mono m t hc
    · rw [linkScenarios_eq, newsFold_containsKey]
      refine Or.inr ?_
      exact (foldLink_processes _ (m, []) p.2 t hpair hnum).2
        (by simpa using Bool.not_eq_true _ ▸ hc)
  · rw [hnil] at ht
    simp at ht

/-- When every numeric successor is already a key, the pass creates no
stubs and the run both preserves `AllPresent` and establishes
`AllLinked`. -/
theorem linkScenarios_of_allPresent (m : List (String × Scenario))
    (h : AllPresent m) :
    AllPresent (linkScenarios m) ∧ AllLinked (linkScenarios m) := by
  have hhyp : ∀ q ∈ succPairs (pyValues m), pyIsNumeric q.2 = true →
      pyContainsKey ((m, ([] : List Scenario))).1 q.2 = true := by
    rintro ⟨sc, t⟩ hq hnum
    obtain ⟨hsc, ht⟩ := (mem_succPairs _ _ _).mp hq
    exact h sc hsc t ht hnum
  have hnews : ((succPairs (pyValues m)).foldl
      (fun a p => linkStep a p.1 p.2) (m, [])).2 = [] :=
    foldLink_news_nil _ (m, []) hhyp
  have hlink : linkScenarios m =
      ((succPairs (pyValues m)).foldl (fun a p => linkStep a p.1 p.2) (m, [])).1 := by
    rw [linkScenarios_eq, hnews]
    rfl
  refine ⟨linkScenarios_allPresent m, ?_⟩
  intro sc' hsc' t ht hnum p' hp' hpt
  rw [hlink] at hsc' hp'
  rcases List.mem_map.mp hsc' with ⟨q, hq, hqe⟩
  obtain ⟨p, hp, _, h2, h3, _⟩ := foldLink_entry_src _ (m, []) q hq
  have htp : t ∈ p.2.successors := by
    rw [← h3, hqe]
    exact ht
  have hpair : (p.2, t) ∈ succPairs (pyValues m) :=
    (mem_succPairs _ _ _).mpr ⟨List.mem_map.mpr ⟨p, hp, rfl⟩, htp⟩
  have hc : pyContainsKey m t = true :=
    h p.2 (List.mem_map.mpr ⟨p, hp, rfl⟩) t htp hnum
  have hres := (foldLink_processes _ (m, []) p.2 t hpair hnum).1 hc p' hp' hpt
  have hids : sc'.id = p.2.id := hqe ▸ h2
  rw [hids]
  exact hres

/-- On an already fully linked map the pass is the identity. -/
theorem linkScenarios_fix (m : List (String × Scenario))
    (h1 : AllPresent m) (h2 : AllLinked m) : linkScenarios m = m := by
  rw [linkScenarios_eq]
  have hid : (succPairs (pyValues m)).foldl
      (fun a p => linkStep a p.1 p.2) (m, []) = (m, []) := by
    refine foldLink_acc_id _ m [] ?_
    rintro ⟨sc, t⟩ hq hnum
    obtain ⟨hsc, ht⟩ := (mem_succPairs _ _ _).mp hq
    exact ⟨h1 sc hsc t ht hnum, h2 sc hsc t ht hnum⟩
  rw [hid]
  rfl

/-- C4 (amended): the relink pass stabilises after the first run — a
second run followed by a third changes nothing (the second and all later
runs produce identical maps).  A *single* run is, however, not
idempotent in general (see the counterexample). -/
theorem linker_idempotent_from_second_run (m : List (String × Scenario)) :
    linkScenarios (linkScenarios (linkScenarios m)) =
      linkScenarios (linkScenarios m) := by
  obtain ⟨hP2, hL2⟩ :=
    linkScenarios_of_allPresent (linkScenarios m) (linkScenarios_allPresent m)
  exact linkScenarios_fix _ hP2 hL2

/-- C4 (counterexample): on the map where scenarios "1" and "2" both
list the missing successor "3", one run leaves predecessors {"2"}
(the stub for "1" was overwritten) while a second run adds the lost
"1" — so running the linker twice does not equal running it once. -/
theorem linker_single_run_not_idempotent :
    (pyLookup (linkScenarios c1map) "3").map Scenario.predecessors =
      some ["2"] ∧
    (pyLookup (linkScenarios (linkScenarios c1map)) "3").map
      Scenario.predecessors = some ["2", "1"] ∧
    linkScenarios (linkScenarios c1map) ≠ linkScenarios c1map := by
  decide

/-! ## C10: the work list of the bounded traversal -/

theorem pyLookup_mem {β : Type} (m : List (String × β)) (k : String) (v : β)
    (h : pyLookup m k = some v) : (k, v) ∈ m := by
  unfold pyLookup at h
  cases hf : m.find? (fun p => decide (p.1 = k)) with
  | none => rw [hf] at h; simp at h
  | some p =>
    rw [hf] at h
    simp only [Option.map_some', Option.some.injEq] at h
    have hmem := List.mem_of_find?_eq_some hf
    have hkey := List.find?_some hf
    simp only [decide_eq_true_eq] at hkey
    have hpe : (k, v) = p := by
      rw [← hkey, ← h]
    rw [hpe]
    exact hmem

theorem nodup_append_singleton {α : Type} (l : List α) (x : α) :
    (l ++ [x]).Nodup ↔ l.Nodup ∧ x ∉ l := by
  rw [List.nodup_append]
  simp

theorem reqScanPre_inv (scs : List (String × Scenario)) (sc : Scenario)
    (hop : Nat) (req : Achievement) :
    ∀ (vals : List Scenario) (work : WorkList) (edges : EdgeList),
      (∀ pre ∈ vals, pre ∈ pyValues scs) →
      (work.map (fun w => w.1.id)).Nodup →
      (∀ w ∈ work, w.1 ∈ pyValues scs) →
      ((reqScanPre sc hop req vals work edges).1.map (fun w => w.1.id)).Nodup ∧
      ∀ w ∈ (reqScanPre sc hop req vals work edges).1, w.1 ∈ pyValues scs := by
  intro vals
  induction vals with
  | nil =>
    intro work edges _ h1 h2
    exact ⟨h1, h2⟩
  | cons pre rest ih =>
    intro work edges hvals h1 h2
    rw [reqScanPre]
    by_cases hg : work.any (fun w => decide (w.1.id = pre.id)) = true
    · rw [if_pos hg]
      exact ih work edges (fun p hp => hvals p (by simp [hp])) h1 h2
    · rw [if_neg hg]
      by_cases hr : req ∈ pre.achievements
      · rw [if_pos hr]
        refine ih _ _ (fun p hp => hvals p (by simp [hp])) ?_ ?_
        · rw [List.map_append]
          simp only [List.map_cons, List.map_nil]
          rw [nodup_append_singleton]
          refine ⟨h1, ?_⟩
          simp only [List.any_eq_true, decide_eq_true_eq] at hg
          intro hmem
          rcases List.mem_map.mp hmem with ⟨w, hw, hwe⟩
          exact hg ⟨w, hw, hwe⟩
        · intro w hw
          rcases List.mem_append.mp hw with hw' | hw'
          · exact h2 w hw'
          · simp only [List.mem_singleton] at hw'
            subst hw'
            exact hvals pre (by simp)
      · rw [if_neg hr]
        exact ih work edges (fun p hp => hvals p (by simp [hp])) h1 h2

theorem reqScan_inv (scs : List (String × Scenario)) (sc : Scenario)
    (hop : Nat) :
    ∀ (reqs : List Achievement) (work : WorkList) (edges : EdgeList),
      (work.map (fun w => w.1.id)).Nodup →
      (∀ w ∈ work, w.1 ∈ pyValues scs) →
      ((reqScan (pyValues scs) sc hop reqs work edges).1.map
        (fun w => w.1.id)).Nodup ∧
      ∀ w ∈ (reqScan (pyValues scs) sc hop reqs work edges).1,
        w.1 ∈ pyValues scs := by
  intro reqs
  induction reqs with
  | nil =>
    intro work edges h1 h2
    exact ⟨h1, h2⟩
  | cons req rest ih =>
    intro work edges h1 h2
    rw [reqScan]
    by_cases hs : req.status = .CLOSED
    · rw [if_pos hs]
      have hpre := reqScanPre_inv scs sc hop req (pyValues scs) work edges
        (fun p hp => hp) h1 h2
      exact ih _ _ hpre.1 hpre.2
    · rw [if_neg hs]
      exact ih work edges h1 h2

theorem predScan_cons (scs : List (String × Scenario)) (sc : Scenario)
    (hop : Nat) (pid : String) (rest : List String) (work : WorkList)
    (edges : EdgeList) :
    predScan scs sc hop (pid :: rest) work edges =
      match pyLookup scs pid with
      | none => .error (.scenarioNotFound pid)
      | some predecessor =>
        predScan scs sc hop rest
          (if work.all (fun w => decide (w.1.id ≠ pid)) then
             work ++ [(predecessor, hop + 1)]
           else work)
          (if edgeContainsKey edges (predecessor.id, sc.id) then edges
           else edges ++ [((predecessor.id, sc.id), none)]) := rfl

theorem predScan_inv (scs : List (String × Scenario)) (sc : Scenario)
    (hop : Nat) (hw : WellKeyed scs) :
    ∀ (pids : List String) (work : WorkList) (edges : EdgeList),
      (work.map (fun w => w.1.id)).Nodup →
      (∀ w ∈ work, w.1 ∈ pyValues scs) →
      ∀ res, predScan scs sc hop pids work edges = .ok res →
        (res.1.map (fun w => w.1.id)).Nodup ∧
        ∀ w ∈ res.1, w.1 ∈ pyValues scs := by
  intro pids
  induction pids with
  | nil =>
    intro work edges h1 h2 res hres
    cases hres
    exact ⟨h1, h2⟩
  | cons pid rest ih =>
    intro work edges h1 h2 res hres
    rw [predScan_cons] at hres
    cases hlk : pyLookup scs pid with
    | none => rw [hlk] at hres; simp at hres
    | some predecessor =>
      rw [hlk] at hres
      simp only [] at hres
      have hpmem : (pid, predecessor) ∈ scs := pyLookup_mem scs pid predecessor hlk
      have hpid : predecessor.id = pid := hw (pid, predecessor) hpmem
      refine ih _ _ ?_ ?_ res hres
      · by_cases ha : work.all (fun w => decide (w.1.id ≠ pid)) = true
        · rw [if_pos ha, List.map_append]
          simp only [List.map_cons, List.map_nil]
          rw [nodup_append_singleton]
          refine ⟨h1, ?_⟩
          simp only [List.all_eq_true, decide_eq_true_eq] at ha
          intro hmem
          rcases List.mem_map.mp hmem with ⟨w, hwm, hwe⟩
          exact ha w hwm (hwe.trans hpid)
        · rw [if_neg ha]
          exact h1
      · by_cases ha : work.all (fun w => decide (w.1.id ≠ pid)) = true
        · rw [if_pos ha]
          intro w hwm
          rcases List.mem_append.mp hwm with hw' | hw'
          · exact h2 w hw'
          · simp only [List.mem_singleton] at hw'
            subst hw'
            exact List.mem_map.mpr ⟨(pid, predecessor), hpmem, rfl⟩
        · rw [if_neg ha]
          exact h2

theorem rstLoop_done (scs : List (String × Scenario)) (mh : Option Nat)
    (fuel : Nat) (work : WorkList) (i : Nat) (edges : EdgeList)
    (nodes : List String) (h : ¬ i < work.length) :
    rstLoop scs mh fuel work i edges nodes = .ok (nodes, edges, work) := by
  cases fuel with
  | zero => rfl
  | succ f =>
    simp only [rstLoop]
    rw [dif_neg h]

theorem rstLoop_succ_skip (scs : List (String × Scenario)) (mh : Option Nat)
    (f : Nat) (work : WorkList) (i : Nat) (edges : EdgeList)
    (nodes : List String) (h : i < work.length)
    (hg : pyGuard mh (work.get ⟨i, h⟩).2 = true) :
    rstLoop scs mh (f + 1) work i edges nodes =
      rstLoop scs mh f work (i + 1) edges nodes := by
  simp only [rstLoop]
  rw [dif_pos h, if_pos hg]

theorem rstLoop_succ_visit (scs : List (String × Scenario)) (mh : Option Nat)
    (f : Nat) (work : WorkList) (i : Nat) (edges : EdgeList)
    (nodes : List String) (h : i < work.length)
    (hg : pyGuard mh (work.get ⟨i, h⟩).2 = false) :
    rstLoop scs mh (f + 1) work i edges nodes =
      match predScan scs (work.get ⟨i, h⟩).1 (work.get ⟨i, h⟩).2
          (work.get ⟨i, h⟩).1.predecessors
          (reqScan (pyValues scs) (work.get ⟨i, h⟩).1 (work.get ⟨i, h⟩).2
            (work.get ⟨i, h⟩).1.requirements work edges).1
          (reqScan (pyValues scs) (work.get ⟨i, h⟩).1 (work.get ⟨i, h⟩).2
            (work.get ⟨i, h⟩).1.requirements work edges).2 with
      | .error e => .error e
      | .ok (work2, edges2) =>
        rstLoop scs mh f work2 (i + 1) edges2
          (nodes ++ [(work.get ⟨i, h⟩).1.id]) := by
  simp only [rstLoop]
  rw [dif_pos h, if_neg (by simp only [Bool.not_eq_true]; exact hg)]

/-- A duplicate-free work list drawn from the values of a well-keyed map
cannot be longer than the map. -/
theorem work_length_le (scs : List (String × Scenario)) (work : WorkList)
    (hw : WellKeyed scs) (h1 : (work.map (fun w => w.1.id)).Nodup)
    (h2 : ∀ w ∈ work, w.1 ∈ pyValues scs) :
    work.length ≤ scs.length := by
  have hsub : (work.map (fun w => w.1.id)) ⊆ scs.map Prod.fst := by
    intro x hx
    rcases List.mem_map.mp hx with ⟨w, hwm, hwe⟩
    rcases List.mem_map.mp (h2 w hwm) with ⟨p, hp, hpe⟩
    have : w.1.id = p.1 := by rw [← hpe]; exact hw p hp
    exact List.mem_map.mpr ⟨p, hp, by rw [← this, hwe]⟩
  have := (List.subperm_of_subset h1 hsub).length_le
  rw [List.length_map, List.length_map] at this
  exact this

/-- The invariant carried over the whole loop: if it returns, the final
work list still has pairwise distinct ids drawn from the map values. -/
theorem rstLoop_inv (scs : List (String × Scenario)) (mh : Option Nat)
    (hw : WellKeyed scs) :
    ∀ (fuel : Nat) (work : WorkList) (i : Nat) (edges : EdgeList)
      (nodes : List String),
      (work.map (fun w => w.1.id)).Nodup →
      (∀ w ∈ work, w.1 ∈ pyValues scs) →
      ∀ res, rstLoop scs mh fuel work i edges nodes = .ok res →
        (res.2.2.map (fun w => w.1.id)).Nodup ∧
        ∀ w ∈ res.2.2, w.1 ∈ pyValues scs := by
  intro fuel
  induction fuel with
  | zero =>
    intro work i edges nodes h1 h2 res hres
    cases hres
    exact ⟨h1, h2⟩
  | succ f ih =>
    intro work i edges nodes h1 h2 res hres
    by_cases h : i < work.length
    · cases hg : pyGuard mh (work.get ⟨i, h⟩).2 with
      | true =>
        rw [rstLoop_succ_skip scs mh f work i edges nodes h hg] at hres
        exact ih work (i + 1) edges nodes h1 h2 res hres
      | false =>
        rw [rstLoop_succ_visit scs mh f work i edges nodes h hg] at hres
        have hreq := reqScan_inv scs (work.get ⟨i, h⟩).1 (work.get ⟨i, h⟩).2
          (work.get ⟨i, h⟩).1.requirements work edges h1 h2
        cases hps : predScan scs (work.get ⟨i, h⟩).1 (work.get ⟨i, h⟩).2
            (work.get ⟨i, h⟩).1.predecessors
            (reqScan (pyValues scs) (work.get ⟨i, h⟩).1 (work.get ⟨i, h⟩).2
              (work.get ⟨i, h⟩).1.requirements work edges).1
            (reqScan (pyValues scs) (work.get ⟨i, h⟩).1 (work.get ⟨i, h⟩).2
              (work.get ⟨i, h⟩).1.requirements work edges).2 with
        | error e => rw [hps] at hres; simp at hres
        | ok we =>
          rw [hps] at hres
          obtain ⟨hpn, hpm⟩ := predScan_inv scs (work.get ⟨i, h⟩).1
            (work.get ⟨i, h⟩).2 hw (work.get ⟨i, h⟩).1.predecessors _ _
            hreq.1 hreq.2 we hps
          obtain ⟨w2, e2⟩ := we
          simp only [] at hres
          exact ih w2 (i + 1) e2 _ hpn hpm res hres
    · rw [rstLoop_done scs mh (f + 1) work i edges nodes h] at hres
      cases hres
      exact ⟨h1, h2⟩

/-- Fuel does not matter once it covers `scs.length - i`: the loop
reaches the end of the work list within that many iterations, because
the work list can never grow past `scs.length`. -/
theorem rstLoop_stable (scs : List (String × Scenario)) (mh : Option Nat)
    (hw : WellKeyed scs) :
    ∀ (n : Nat) (fuel fuel' : Nat) (work : WorkList) (i : Nat)
      (edges : EdgeList) (nodes : List String),
      (work.map (fun w => w.1.id)).Nodup →
      (∀ w ∈ work, w.1 ∈ pyValues scs) →
      scs.length - i ≤ n → n ≤ fuel → n ≤ fuel' →
      rstLoop scs mh fuel work i edges nodes =
        rstLoop scs mh fuel' work i edges nodes := by
  intro n
  induction n with
  | zero =>
    intro fuel fuel' work i edges nodes h1 h2 hn _ _
    have hlen : work.length ≤ scs.length := work_length_le scs work hw h1 h2
    have hdone : ¬ i < work.length := by omega
    rw [rstLoop_done scs mh fuel work i edges nodes hdone,
      rstLoop_done scs mh fuel' work i edges nodes hdone]
  | succ n ih =>
    intro fuel fuel' work i edges nodes h1 h2 hn hf hf'
    by_cases h : i < work.length
    · have hlen : work.length ≤ scs.length := work_length_le scs work hw h1 h2
      cases fuel with
      | zero => omega
      | succ f =>
        cases fuel' with
        | zero => omega
        | succ f' =>
          cases hg : pyGuard mh (work.get ⟨i, h⟩).2 with
          | true =>
            rw [rstLoop_succ_skip scs mh f work i edges nodes h hg,
              rstLoop_succ_skip scs mh f' work i edges nodes h hg]
            exact ih f f' work (i + 1) edges nodes h1 h2 (by omega)
              (by omega) (by omega)
          | false =>
            rw [rstLoop_succ_visit scs mh f work i edges nodes h hg,
              rstLoop_succ_visit scs mh f' work i edges nodes h hg]
            have hreq := reqScan_inv scs (work.get ⟨i, h⟩).1 (work.get ⟨i, h⟩).2
              (work.get ⟨i, h⟩).1.requirements work edges h1 h2
            cases hps : predScan scs (work.get ⟨i, h⟩).1 (work.get ⟨i, h⟩).2
                (work.get ⟨i, h⟩).1.predecessors
                (reqScan (pyValues scs) (work.get ⟨i, h⟩).1 (work.get ⟨i, h⟩).2
                  (work.get ⟨i, h⟩).1.requirements work edges).1
                (reqScan (pyValues scs) (work.get ⟨i, h⟩).1 (work.get ⟨i, h⟩).2
                  (work.get ⟨i, h⟩).1.requirements work edges).2 with
            | error e => rfl
            | ok we =>
              obtain ⟨hpn, hpm⟩ := predScan_inv scs (work.get ⟨i, h⟩).1
                (work.get ⟨i, h⟩).2 hw (work.get ⟨i, h⟩).1.predecessors _ _
                hreq.1 hreq.2 we hps
              obtain ⟨w2, e2⟩ := we
              simp only []
              exact ih f f' w2 (i + 1) e2 _ hpn hpm (by omega) (by omega)
                (by omega)
    · rw [rstLoop_done scs mh fuel work i edges nodes h,
        rstLoop_done scs mh fuel' work i edges nodes h]

/-- C10 (amended): for a *well-keyed* manager — every binding stores a
scenario whose `id` equals its dict key, the invariant every constructor
path of the source maintains — the bounded traversal always terminates:
the fuel `scenarios.length + 1` supplied by `renderScenarioTree` is
never exhausted (any larger fuel computes the same result), and on
success the final work list has pairwise distinct scenario ids and
length at most the number of scenarios. -/
theorem renderScenarioTree_terminates (mgr : ScenarioManager) (root : String)
    (mh : Option Nat) (hw : WellKeyed mgr.scenarios) :
    (∀ extra,
      renderScenarioTreeFuel mgr root mh (mgr.scenarios.length + 1 + extra) =
        renderScenarioTree mgr root mh) ∧
    (∀ nodes edges work,
      renderScenarioTree mgr root mh = .ok (nodes, edges, work) →
      (work.map (fun w => w.1.id)).Nodup ∧
      work.length ≤ mgr.scenarios.length) := by
  constructor
  · intro extra
    unfold renderScenarioTree renderScenarioTreeFuel
    cases hlk : pyLookup mgr.scenarios root with
    | none => rfl
    | some r =>
      have hmem : r ∈ pyValues mgr.scenarios :=
        List.mem_map.mpr ⟨(root, r), pyLookup_mem _ _ _ hlk, rfl⟩
      refine rstLoop_stable mgr.scenarios mh hw (mgr.scenarios.length + 1) _ _
        [(r, 0)] 0 [] [] (by simp) ?_ (by omega) (by omega) (by omega)
      intro w hwm
      simp only [List.mem_singleton] at hwm
      rw [hwm]
      exact hmem
  · intro nodes edges work hres
    unfold renderScenarioTree renderScenarioTreeFuel at hres
    cases hlk : pyLookup mgr.scenarios root with
    | none => rw [hlk] at hres; simp at hres
    | some r =>
      rw [hlk] at hres
      simp only [] at hres
      have hmem : r ∈ pyValues mgr.scenarios :=
        List.mem_map.mpr ⟨(root, r), pyLookup_mem _ _ _ hlk, rfl⟩
      have hinv := rstLoop_inv mgr.scenarios mh hw (mgr.scenarios.length + 1)
        [(r, 0)] 0 [] [] (by simp) ?_ (nodes, edges, work) hres
      · exact ⟨hinv.1, work_length_le _ _ hw hinv.1 hinv.2⟩
      · intro w hwm
        simp only [List.mem_singleton] at hwm
        rw [hwm]
        exact hmem

/-- C10 (counterexample): when a binding's key differs from the stored
scenario's `id` field ("1" ↦ scenario with id "2"), the predecessor
guard `all(w[0].id != predecessor_id)` compares the *key* against the
*field* and never fires, so the same scenario is re-enqueued on every
visit: the work list exceeds the number of scenarios and holds the same
id several times (in Python the loop never ends; in the fuelled model
the work list has already grown to 3 > 1 when the supplied fuel is
spent). -/
theorem rst_work_list_exceeds_scenarios :
    pathoMgr.scenarios.length = 1 ∧
    (rstWork (renderScenarioTree pathoMgr "1" none)).length = 3 ∧
    ¬ ((rstWork (renderScenarioTree pathoMgr "1" none)).map
        (fun w => w.1.id)).Nodup := by
  decide

/-- C10 witness: the chain manager is well-keyed and extra fuel does not
change the traversal's result. -/
theorem renderScenarioTree_terminates_witness :
    WellKeyed chainMgr.scenarios ∧
    renderScenarioTreeFuel chainMgr "3" none
        (chainMgr.scenarios.length + 1 + 5) =
      renderScenarioTree chainMgr "3" none :=
  ⟨by decide, (renderScenarioTree_terminates chainMgr "3" none (by decide)).1 5⟩
